import Mathlib

/-!
Verification model of `tap_sftp_files/__init__.py` (tap-sftp-files).

The Python module syncs files from an SFTP server: `download` selects remote
files (explicit `files` list, or a `path_prefix` subtree), fetches them into
`target_dir`, optionally deletes the remote copies afterwards under a shared
`removed_file_count` budget capped by `max_file_count`, and in
`incremental_mode` reconciles the downloaded local tree against a persisted
md5 ledger.

The embedding below translates the module function by function.  External
pysftp operations (connect, listdir, isdir, remove, get) are represented by
explicit oracles: a directory-listing function, a per-file content function,
and a failure oracle saying which `remove` calls raise.
-/

namespace TapSftpFiles

/-- Python truthiness of an optional integer (`if max_file_count:`):
`None` and `0` are falsy. -/
def optTruthy : Option Nat → Bool
  | none => false
  | some n => !(n == 0)

/-- Python truthiness of an optional string (`elif remote_path:`):
`None` and `""` are falsy. -/
def strTruthy (o : Option String) : Bool :=
  !(o.getD "" == "")

/-- Python truthiness of an optional list (`if remote_files:`):
`None` and `[]` are falsy. -/
def listTruthy (o : Option (List String)) : Bool :=
  !(o.getD []).isEmpty

/-- Lookup in a Python dict modelled as an insertion-ordered association
list (`state.get(remote_file_path)`). -/
def dictGet (m : List (String × String)) (k : String) : Option String :=
  (m.find? (fun kv => kv.1 == k)).map (fun kv => kv.2)

/-- Assignment into a Python dict modelled as an insertion-ordered
association list (`state[remote_file_path] = file_hash`): overwrite in
place when the key exists, append otherwise. -/
def dictSet (m : List (String × String)) (k v : String) : List (String × String) :=
  if m.any (fun kv => kv.1 == k) then
    m.map (fun kv => if kv.1 == k then (k, v) else kv)
  else
    m ++ [(k, v)]

/-- `s.split('/')`: the segments of a path, keeping empty segments exactly
as Python does. -/
def splitSlash : List Char → List String
  | [] => [""]
  | c :: cs =>
    if c = '/' then "" :: splitSlash cs
    else
      match splitSlash cs with
      | [] => [(⟨[c]⟩ : String)]
      | s :: rest => (⟨c :: s.data⟩ : String) :: rest

/-- `file.split('/')[-1]`: the base name used as the local target in flat
mode. -/
def lastSeg (s : String) : String :=
  (splitSlash s.data).getLastD ""

/-- `name.startswith(pre)`. -/
def pyStartsWith (s pre : String) : Bool :=
  pre.data.isPrefixOf s.data

/-- Helper for `replaceFirst`: locate the first occurrence of `pat` in the
character list, returning the characters before it and the characters after
it. -/
def findSplit (pat : List Char) : List Char → Option (List Char × List Char)
  | [] => if pat.isEmpty then some ([], []) else none
  | c :: cs =>
    if pat.isPrefixOf (c :: cs) then some ([], (c :: cs).drop pat.length)
    else (findSplit pat cs).map (fun pr => (c :: pr.1, pr.2))

/-- Python `s.replace(old, new, 1)`: replace the first occurrence of `old`
by `new`, leaving `s` unchanged when `old` does not occur.  Used to derive
the remote path of a walked local file. -/
def replaceFirst (s old new : String) : String :=
  match findSplit old.data s.data with
  | some pr => ⟨pr.1 ++ new.data ++ pr.2⟩
  | none => s

/-- A remote directory entry as the recursive deletion walk observes it:
`listdir` returns the children in order, `isdir` distinguishes the two
constructors. -/
inductive REnt where
  | file (name : String)
  | dir (name : String) (children : List REnt)

/-- The budget guard at the top of each loop iteration of `rm`:
`if max_file_count and removed_file_count >= max_file_count: break`. -/
def rmBreak (max_file_count : Option Nat) (removed_file_count : Nat) : Bool :=
  optTruthy max_file_count && decide (removed_file_count ≥ max_file_count.getD 0)

/-- `rm(sftp_conn, remote_path, removed_file_count, max_file_count)` walked
over the listed entries of `remote_path`.  `fails p = true` means
`sftp_conn.remove(p)` raises.  Returns the remote paths actually removed,
the in-flight counter, and whether an exception escaped (in Python `rm` has
no handler, so a raise aborts the remaining iterations and propagates). -/
def rmList (fails : String → Bool) (remote_path : String) (ents : List REnt)
    (removed_file_count : Nat) (max_file_count : Option Nat) :
    List String × Nat × Bool :=
  match ents with
  | [] => ([], removed_file_count, false)
  | e :: rest =>
    if rmBreak max_file_count removed_file_count then
      ([], removed_file_count, false)
    else
      match e with
      | .file name =>
        let fp := remote_path ++ "/" ++ name
        if fails fp then ([], removed_file_count, true)
        else
          let r := rmList fails remote_path rest (removed_file_count + 1) max_file_count
          (fp :: r.1, r.2)
      | .dir name children =>
        let fp := remote_path ++ "/" ++ name
        let inner := rmList fails fp children removed_file_count max_file_count
        if inner.2.2 then inner
        else
          let r := rmList fails remote_path rest inner.2.1 max_file_count
          (inner.1 ++ r.1, r.2)
termination_by sizeOf ents

/-- The eligibility test of the single-file branch of `sftp_remove`:
`remote_file and ((max_file_count and removed_file_count < max_file_count)
or not max_file_count)`. -/
def budgetOk (max_file_count : Option Nat) (removed_file_count : Nat) : Bool :=
  (optTruthy max_file_count && decide (removed_file_count < max_file_count.getD 0))
    || !optTruthy max_file_count

/-- `sftp_remove(sftp_conn, delete_after_sync, remote_file, remote_path,
removed_file_count, max_file_count)`.  `lookup p` models
`sftp_conn.listdir` for the subtree rooted at `p`; `fails` is the removal
failure oracle.  Returns the remote paths removed and the Python return
value (`none` models the bare `return` of the disabled case, which returns
`None`).  The blanket `except` catches a raise from either branch, logs it,
and falls through to `return removed_file_count` with the local variable
still holding the value passed in. -/
def sftp_remove (fails : String → Bool) (lookup : String → List REnt)
    (delete_after_sync : Bool) (remote_file remote_path : Option String)
    (removed_file_count : Nat) (max_file_count : Option Nat) :
    List String × Option Nat :=
  if !delete_after_sync then ([], none)
  else if strTruthy remote_file && budgetOk max_file_count removed_file_count then
    let f := remote_file.getD ""
    if fails f then ([], some removed_file_count)
    else ([f], some (removed_file_count + 1))
  else if strTruthy remote_path then
    let p := remote_path.getD ""
    let r := rmList fails p (lookup p) removed_file_count max_file_count
    if r.2.2 then (r.1, some removed_file_count)
    else (r.1, some r.2.1)
  else ([], some removed_file_count)

/-- `LimitedFilesConnection`: the pysftp connection subclass used when
`max_file_count` is configured.  Only the counters of the override matter;
the transport is external. -/
structure LimitedFilesConnection where
  max_file_count : Nat
  current_file_count : Nat

/-- The `stop_get_files` property: `current_file_count >= max_file_count`. -/
def stop_get_files (c : LimitedFilesConnection) : Bool :=
  decide (c.current_file_count ≥ c.max_file_count)

/-- The overridden `get`: return immediately (no transfer, no raise) once
`stop_get_files` holds, otherwise bump the counter and delegate the
transfer.  The boolean reports whether a transfer happened. -/
def lfcGet (c : LimitedFilesConnection) : LimitedFilesConnection × Bool :=
  if stop_get_files c then (c, false)
  else ({ c with current_file_count := c.current_file_count + 1 }, true)

/-- A session of `n` consecutive `get` calls, counting transfers. -/
def lfcRun (c : LimitedFilesConnection) : Nat → LimitedFilesConnection × Nat
  | 0 => (c, 0)
  | n + 1 =>
    let s := lfcGet c
    let r := lfcRun s.1 n
    (r.1, (if s.2 then 1 else 0) + r.2)

/-- All file paths in a remote subtree, in listing order (what `get_r`
transfers, and the order the deletion walk visits). -/
def allFiles (path : String) (ents : List REnt) : List String :=
  match ents with
  | [] => []
  | .file name :: rest => (path ++ "/" ++ name) :: allFiles path rest
  | .dir name children :: rest =>
    allFiles (path ++ "/" ++ name) children ++ allFiles path rest
termination_by sizeOf ents

/-- The direct file children of a remote directory (what `get_d`
transfers). -/
def directFiles (path : String) (ents : List REnt) : List String :=
  ents.filterMap fun e =>
    match e with
    | .file name => some (path ++ "/" ++ name)
    | .dir _ _ => none

/-- The configuration keys of `download` that drive the sync algorithm.
Transport keys (host, port, credentials) are external. -/
structure Config where
  files : Option (List String) := none
  path_prefix : Option String := none
  target_dir : String := ""
  delete_after_sync : Bool := false
  incremental_mode : Bool := false
  recursive_clone : Bool := false
  exact_directory : Bool := false
  max_file_count : Option Nat := none

/-- Loop state of the flat (`remote_files`) download loop: the session's
download counter, the remote files transferred, the local writes performed
(target path, content), the remote deletions, and `removed_file_count`. -/
structure FlatAcc where
  lfcCount : Nat
  gets : List String
  writes : List (String × String)
  dels : List String
  cnt : Nat

/-- One iteration of the flat loop: compute the flattened target
`f"\x7btarget_dir\x7d/\x7bfile.split('/')[-1]\x7d"`, `sftp.get` (through
`LimitedFilesConnection` when `max_file_count` is configured, plain
`pysftp.Connection` otherwise), then `sftp_remove` of that file unless
`incremental_mode`.  When `delete_after_sync` is false Python assigns the
returned `None` to `removed_file_count`; the counter is then never consulted
again, which `Option.getD` reproduces observably. -/
def flatStep (fails : String → Bool) (lookup : String → List REnt)
    (content : String → String) (cfg : Config) (acc : FlatAcc) (f : String) :
    FlatAcc :=
  let target := cfg.target_dir ++ "/" ++ lastSeg f
  let tr :=
    if optTruthy cfg.max_file_count then
      let s := lfcGet ⟨cfg.max_file_count.getD 0, acc.lfcCount⟩
      (s.1.current_file_count, s.2)
    else (acc.lfcCount, true)
  let gets := if tr.2 then acc.gets ++ [f] else acc.gets
  let writes := if tr.2 then acc.writes ++ [(target, content f)] else acc.writes
  if cfg.incremental_mode then
    { lfcCount := tr.1, gets := gets, writes := writes, dels := acc.dels, cnt := acc.cnt }
  else
    let r := sftp_remove fails lookup cfg.delete_after_sync (some f) none acc.cnt cfg.max_file_count
    { lfcCount := tr.1, gets := gets, writes := writes,
      dels := acc.dels ++ r.1, cnt := r.2.getD acc.cnt }

/-- Errors `download` can raise, as far as the claims observe them. -/
inductive RunError where
  /-- "Only limit files if delete_after_sync is enabled" -/
  | configError
  /-- "One of the parameters path_prefix or files must be defined." -/
  | noSourceError
  /-- A Python `TypeError`: `pysftp.Connection` rejecting the leftover
  `max_file_count` keyword, or `str.replace` applied to a `None`
  `remote_path`. -/
  | typeError
deriving Repr, DecidableEq

/-- Loop state of the incremental reconcile walk. -/
structure IncAcc where
  connects : Nat
  remoteDels : List String
  localDels : List String
  state : List (String × String)
  cnt : Nat
deriving Repr, DecidableEq

/-- The incremental walk of `download` over the local files found under
`target_dir` (given as `(local_path, content)` pairs), with `h` standing
for `calculate_md5` of a file's content.  Per file: derive the remote path
by `local_file_path.replace(target_dir, remote_path, 1)`, hash, and compare
with the ledger.  Equal: delete the local copy only.  Different or absent:
open a fresh `pysftp.Connection(host, **connection_config)` and
`sftp_remove` that remote file — but when `max_file_count` was configured,
`connection_config` still carries the `max_file_count` key, which
`pysftp.Connection.__init__` does not accept, so the constructor raises a
`TypeError` and the run aborts.  Both completed branches write the hash
into the ledger. -/
def reconcileGo (fails : String → Bool) (lookup : String → List REnt)
    (h : String → String) (cfg : Config) :
    List (String × String) → IncAcc → IncAcc × Option RunError
  | [], acc => (acc, none)
  | (lp, c) :: rest, acc =>
    match cfg.path_prefix with
    | none => (acc, some .typeError)
    | some rp =>
      let rfp := replaceFirst lp cfg.target_dir rp
      let hv := h c
      if dictGet acc.state rfp == some hv then
        reconcileGo fails lookup h cfg rest
          { acc with localDels := acc.localDels ++ [lp],
                     state := dictSet acc.state rfp hv }
      else if optTruthy cfg.max_file_count then
        (acc, some .typeError)
      else
        let r := sftp_remove fails lookup cfg.delete_after_sync (some rfp) none acc.cnt cfg.max_file_count
        reconcileGo fails lookup h cfg rest
          { connects := acc.connects + 1,
            remoteDels := acc.remoteDels ++ r.1,
            localDels := acc.localDels,
            state := dictSet acc.state rfp hv,
            cnt := r.2.getD acc.cnt }

/-- Observable outcome of one `download` run. -/
structure RunResult where
  connects : Nat
  gets : List String
  writes : List (String × String)
  remoteDels : List String
  localDels : List String
  finalState : Option (List (String × String))
  err : Option RunError
deriving Repr, DecidableEq

/-- The `download` entry point.  `lookup p` lists the remote subtree rooted
at `p`, `content` gives remote file contents, `fails` says which removals
raise, `walk` is the `os.walk` enumeration of `target_dir` after the
download phase, `state0` the loaded state ledger, `h` the content hash.
Phases in source order: validate `max_file_count` against
`delete_after_sync`; flat list or `path_prefix` subtree download with
inline deletions; incremental reconcile; final state write (reached only
when the walk completes). -/
def downloadRun (cfg : Config) (lookup : String → List REnt)
    (content : String → String) (fails : String → Bool)
    (walk : List (String × String)) (state0 : List (String × String))
    (h : String → String) : RunResult :=
  if optTruthy cfg.max_file_count && !cfg.delete_after_sync then
    ⟨0, [], [], [], [], none, some .configError⟩
  else
    let phase :=
      if listTruthy cfg.files then
        let fl := cfg.files.getD []
        let acc := fl.foldl (flatStep fails lookup content cfg) ⟨0, [], [], [], 0⟩
        some (1, acc.gets, acc.writes, acc.dels, acc.cnt)
      else if strTruthy cfg.path_prefix then
        let rp := cfg.path_prefix.getD ""
        let fileList :=
          if cfg.recursive_clone then allFiles rp (lookup rp)
          else if cfg.exact_directory then directFiles rp (lookup rp)
          else allFiles rp (lookup rp)
        let gets :=
          if optTruthy cfg.max_file_count then fileList.take (cfg.max_file_count.getD 0)
          else fileList
        if cfg.incremental_mode then some (1, gets, [], [], 0)
        else
          let r := sftp_remove fails lookup cfg.delete_after_sync none (some rp) 0 cfg.max_file_count
          some (1, gets, ([] : List (String × String)), r.1, r.2.getD 0)
      else none
    match phase with
    | none => ⟨0, [], [], [], [], none, some .noSourceError⟩
    | some (connects, gets, writes, dels, cnt) =>
      if cfg.incremental_mode then
        let r := reconcileGo fails lookup h cfg walk ⟨0, [], [], state0, cnt⟩
        match r.2 with
        | some e =>
          ⟨connects + r.1.connects, gets, writes, dels ++ r.1.remoteDels,
            r.1.localDels, none, some e⟩
        | none =>
          ⟨connects + r.1.connects, gets, writes, dels ++ r.1.remoteDels,
            r.1.localDels, some r.1.state, none⟩
      else ⟨connects, gets, writes, dels, [], none, none⟩

/-- Fold the local writes of a run into the final local directory content:
each write overwrites any earlier write to the same path. -/
def finalLocal (writes : List (String × String)) : List (String × String) :=
  writes.foldl (fun m kv => dictSet m kv.1 kv.2) []

/-! ### The state ledger on disk

`download` persists the ledger with `json.dump(state, open(...), indent=4)`
and `load_json` reads it back with `json.load` (absent file: empty dict).
The serializer below reproduces `json.dump` for a flat string-to-string
object whose strings need no escaping, and the parser reproduces `json.load`
on that fragment; characters that `json.dump` would escape are outside the
fragment and rejected by `plainChar`. -/

/-- A character `json.dump` writes verbatim inside a string literal:
printable ASCII other than the quote and the backslash. -/
def plainChar (c : Char) : Bool :=
  !(c == '\"') && !(c == '\\') && decide (32 ≤ c.toNat) && decide (c.toNat < 127)

/-- A string `json.dump` writes without any escape sequence. -/
def plainStr (s : String) : Bool :=
  s.data.all plainChar

/-- JSON insignificant whitespace. -/
def jsonWs (c : Char) : Bool :=
  c == ' ' || c == '\t' || c == '\n' || c == '\r'

/-- Drop leading JSON whitespace. -/
def skipWs : List Char → List Char
  | [] => []
  | c :: cs => if jsonWs c then skipWs cs else c :: cs

/-- Characters of a string literal up to the closing quote (escape-free
fragment). -/
def strChars : List Char → Option (List Char × List Char)
  | [] => none
  | c :: cs =>
    if c == '\"' then some ([], cs)
    else if plainChar c then (strChars cs).map (fun pr => (c :: pr.1, pr.2))
    else none

/-- Parse one string literal including its opening quote. -/
def parseStr : List Char → Option (String × List Char)
  | [] => none
  | c :: cs =>
    if c == '\"' then (strChars cs).map (fun pr => ((⟨pr.1⟩ : String), pr.2))
    else none

/-- Parse the members of a JSON object after its opening brace: one
`"key": "value"` pair, then either a comma and further members or the
closing brace.  The fuel argument only bounds the recursion depth; one
member costs at least seven characters, so the fuel `parseLedger` supplies
is never the reason a parse stops. -/
def parseEntriesGo : Nat → List Char → Option (List (String × String) × List Char)
  | 0, _ => none
  | fuel + 1, l =>
    match parseStr (skipWs l) with
    | none => none
    | some (k, l2) =>
      match skipWs l2 with
      | ':' :: l3 =>
        match parseStr (skipWs l3) with
        | none => none
        | some (v, l4) =>
          match skipWs l4 with
          | ',' :: l5 =>
            match parseEntriesGo fuel l5 with
            | none => none
            | some (es, rest) => some ((k, v) :: es, rest)
          | '\x7d' :: l5 => some ([(k, v)], l5)
          | _ => none
      | _ => none

/-- `json.load` restricted to a flat string-to-string object: outer braces,
members, and nothing but whitespace after. -/
def parseLedger (s : String) : Option (List (String × String)) :=
  match skipWs s.data with
  | '\x7b' :: r =>
    match skipWs r with
    | '\x7d' :: r2 => if (skipWs r2).isEmpty then some [] else none
    | _ =>
      match parseEntriesGo (s.data.length + 1) r with
      | some er => if (skipWs er.2).isEmpty then some er.1 else none
      | none => none
  | _ => none

/-- One `"key": "value"` member as `json.dump(..., indent=4)` writes it. -/
def dumpEntry (kv : String × String) : String :=
  "    \"" ++ kv.1 ++ "\": \"" ++ kv.2 ++ "\""

/-- The members joined by the item separator of `json.dump(..., indent=4)`
(a comma, a newline, and the next member's indent). -/
def dumpEntries : List (String × String) → String
  | [] => ""
  | [kv] => dumpEntry kv
  | kv :: rest => dumpEntry kv ++ ",\n" ++ dumpEntries rest

/-- `json.dump(state, f, indent=4)` for a flat string-to-string object. -/
def dumpLedger (m : List (String × String)) : String :=
  if m.isEmpty then "\x7b\x7d"
  else "\x7b\n" ++ dumpEntries m ++ "\n\x7d"

/-- `load_json(path)`: an absent state file yields an empty dict, a present
one is parsed as JSON. -/
def load_json (file : Option String) : Option (List (String × String)) :=
  match file with
  | none => some []
  | some s => parseLedger s

/-! ### Pattern-filtered selection -/

/-- Modelled from the spec: the `tables` pattern-filtered selection mode is
described by the spec (a set of string name prefixes; the walk descends into
every subdirectory unconditionally and collects, at any depth, the files
whose name starts with a configured prefix) but no function of it appears in
the source tree.  The walk returns the selected files in listing order. -/
def patternSelectFiles (patterns : List String) (path : String)
    (ents : List REnt) : List String :=
  match ents with
  | [] => []
  | .file name :: rest =>
    (if patterns.any (fun p => pyStartsWith name p) then [path ++ "/" ++ name] else [])
      ++ patternSelectFiles patterns path rest
  | .dir name children :: rest =>
    patternSelectFiles patterns (path ++ "/" ++ name) children
      ++ patternSelectFiles patterns path rest
termination_by sizeOf ents

/-- Every file of a remote subtree together with its bare entry name, in
listing order. -/
def allFilesNamed (path : String) (ents : List REnt) : List (String × String) :=
  match ents with
  | [] => []
  | .file name :: rest => (path ++ "/" ++ name, name) :: allFilesNamed path rest
  | .dir name children :: rest =>
    allFilesNamed (path ++ "/" ++ name) children ++ allFilesNamed path rest
termination_by sizeOf ents

/-! ### Counting lemmas for the deletion budget -/

theorem rmList_count (fails : String → Bool) (remote_path : String)
    (ents : List REnt) (removed_file_count : Nat) (m : Option Nat) :
    (rmList fails remote_path ents removed_file_count m).2.1
      = removed_file_count + (rmList fails remote_path ents removed_file_count m).1.length := by
  induction remote_path, ents, removed_file_count, m using rmList.induct fails with
  | case1 p cnt m => simp [rmList]
  | case2 p cnt m e rest hb => rw [rmList.eq_def]; simp [hb]
  | case3 p cnt m rest hb name fp hf =>
    rw [rmList.eq_def]; simp [hb, hf]
  | case4 p cnt m rest hb name fp hf ih =>
    have hf2 : fails (p ++ "/" ++ name) = false := by
      have := hf; simp only [Bool.not_eq_true] at this; exact this
    have ih2 : (rmList fails p rest (cnt + 1) m).2.1
        = (cnt + 1) + (rmList fails p rest (cnt + 1) m).1.length := ih
    rw [rmList.eq_def]
    simp only [hb, Bool.false_eq_true, if_false, hf2, List.length_cons]
    omega
  | case5 p cnt m rest hb name children fp inner hraise ih =>
    have hr : (rmList fails (p ++ "/" ++ name) children cnt m).2.2 = true := hraise
    have ih2 : (rmList fails (p ++ "/" ++ name) children cnt m).2.1
        = cnt + (rmList fails (p ++ "/" ++ name) children cnt m).1.length := ih
    rw [rmList.eq_def]
    simp only [hb, Bool.false_eq_true, if_false, hr, if_true]
    exact ih2
  | case6 p cnt m rest hb name children fp inner hok ih1 ih2 ih3 =>
    have hr : (rmList fails (p ++ "/" ++ name) children cnt m).2.2 = false := by
      have := hok; simp only [Bool.not_eq_true] at this; exact this
    have j1 : (rmList fails (p ++ "/" ++ name) children cnt m).2.1
        = cnt + (rmList fails (p ++ "/" ++ name) children cnt m).1.length := ih1
    have j3 : (rmList fails p rest ((rmList fails (p ++ "/" ++ name) children cnt m).2.1) m).2.1
        = (rmList fails (p ++ "/" ++ name) children cnt m).2.1
          + (rmList fails p rest ((rmList fails (p ++ "/" ++ name) children cnt m).2.1) m).1.length := ih3
    rw [rmList.eq_def]
    simp only [hb, Bool.false_eq_true, if_false, hr, List.length_append]
    omega

theorem rmList_le (fails : String → Bool) (remote_path : String)
    (ents : List REnt) (removed_file_count : Nat) (m : Option Nat) :
    ∀ N : Nat, m = some N → N ≠ 0 → removed_file_count ≤ N →
      (rmList fails remote_path ents removed_file_count m).2.1 ≤ N := by
  induction remote_path, ents, removed_file_count, m using rmList.induct fails with
  | case1 p cnt m => intro N hm hN hc; simpa [rmList] using hc
  | case2 p cnt m e rest hb => intro N hm hN hc; rw [rmList.eq_def]; simpa [hb] using hc
  | case3 p cnt m rest hb name fp hf =>
    intro N hm hN hc; rw [rmList.eq_def]; simpa [hb, hf] using hc
  | case4 p cnt m rest hb name fp hf ih =>
    intro N hm hN hc
    subst hm
    have hf2 : fails (p ++ "/" ++ name) = false := by
      have := hf; simp only [Bool.not_eq_true] at this; exact this
    have hlt : cnt < N := by
      simp [rmBreak, optTruthy, hN] at hb
      omega
    have ih2 : (rmList fails p rest (cnt + 1) (some N)).2.1 ≤ N := ih N rfl hN hlt
    rw [rmList.eq_def]
    simpa [hb, hf2] using ih2
  | case5 p cnt m rest hb name children fp inner hraise ih =>
    intro N hm hN hc
    have hr : (rmList fails (p ++ "/" ++ name) children cnt m).2.2 = true := hraise
    have ih2 : (rmList fails (p ++ "/" ++ name) children cnt m).2.1 ≤ N := ih N hm hN hc
    rw [rmList.eq_def]
    simpa [hb, hr] using ih2
  | case6 p cnt m rest hb name children fp inner hok ih1 ih2 ih3 =>
    intro N hm hN hc
    have hr : (rmList fails (p ++ "/" ++ name) children cnt m).2.2 = false := by
      have := hok; simp only [Bool.not_eq_true] at this; exact this
    have j1 : (rmList fails (p ++ "/" ++ name) children cnt m).2.1 ≤ N := ih1 N hm hN hc
    have j3 : (rmList fails p rest ((rmList fails (p ++ "/" ++ name) children cnt m).2.1) m).2.1 ≤ N :=
      ih3 N hm hN j1
    rw [rmList.eq_def]
    simpa [hb, hr] using j3

theorem sftp_remove_file_spec (fails : String → Bool) (lookup : String → List REnt)
    (f : String) (cnt N : Nat) (hN : N ≠ 0) (hc : cnt ≤ N) :
    (sftp_remove fails lookup true (some f) none cnt (some N)).2
        = some (cnt + (sftp_remove fails lookup true (some f) none cnt (some N)).1.length)
      ∧ cnt + (sftp_remove fails lookup true (some f) none cnt (some N)).1.length ≤ N := by
  by_cases hf0 : f = ""
  · subst hf0
    simp [sftp_remove, strTruthy, hc]
  · by_cases hbud : cnt < N
    · by_cases hfail : fails f = true
      · simp [sftp_remove, strTruthy, budgetOk, optTruthy, hf0, hbud, hfail, hN, hc]
      · simp only [Bool.not_eq_true] at hfail
        simp [sftp_remove, strTruthy, budgetOk, optTruthy, hf0, hbud, hfail, hN]
        omega
    · have hb : budgetOk (some N) cnt = false := by
        simp [budgetOk, optTruthy, hN]
        omega
      simp [sftp_remove, strTruthy, hf0, hb, hc]

theorem flatStep_dels (fails : String → Bool) (lookup : String → List REnt)
    (content : String → String) (cfg : Config) (N : Nat)
    (hmax : cfg.max_file_count = some N) (hN : N ≠ 0)
    (hdas : cfg.delete_after_sync = true) (f : String) (acc : FlatAcc)
    (h1 : acc.dels.length = acc.cnt) (h2 : acc.cnt ≤ N) :
    (flatStep fails lookup content cfg acc f).dels.length
        = (flatStep fails lookup content cfg acc f).cnt
      ∧ (flatStep fails lookup content cfg acc f).cnt ≤ N := by
  have hs := sftp_remove_file_spec fails lookup f acc.cnt N hN h2
  unfold flatStep
  by_cases hinc : cfg.incremental_mode
  · simp [hinc, h1, h2]
  · simp only [hinc, Bool.false_eq_true, if_false]
    rw [hdas, hmax]
    simp [hs.1, List.length_append, h1]
    exact hs.2

theorem flatFold_dels (fails : String → Bool) (lookup : String → List REnt)
    (content : String → String) (cfg : Config) (N : Nat)
    (hmax : cfg.max_file_count = some N) (hN : N ≠ 0)
    (hdas : cfg.delete_after_sync = true) :
    ∀ (fl : List String) (acc : FlatAcc), acc.dels.length = acc.cnt → acc.cnt ≤ N →
      (fl.foldl (flatStep fails lookup content cfg) acc).dels.length
          = (fl.foldl (flatStep fails lookup content cfg) acc).cnt
        ∧ (fl.foldl (flatStep fails lookup content cfg) acc).cnt ≤ N := by
  intro fl
  induction fl with
  | nil => intro acc h1 h2; exact ⟨h1, h2⟩
  | cons f rest ih =>
    intro acc h1 h2
    have hstep := flatStep_dels fails lookup content cfg N hmax hN hdas f acc h1 h2
    exact ih (flatStep fails lookup content cfg acc f) hstep.1 hstep.2

theorem reconcileGo_maxT (fails : String → Bool) (lookup : String → List REnt)
    (h : String → String) (cfg : Config)
    (hmax : optTruthy cfg.max_file_count = true) :
    ∀ (walk : List (String × String)) (acc : IncAcc),
      (reconcileGo fails lookup h cfg walk acc).1.remoteDels = acc.remoteDels := by
  intro walk
  induction walk with
  | nil => intro acc; simp [reconcileGo]
  | cons wf rest ih =>
    intro acc
    obtain ⟨lp, c⟩ := wf
    unfold reconcileGo
    match hpp : cfg.path_prefix with
    | none => simp
    | some rp =>
      simp only
      by_cases heq : (dictGet acc.state (replaceFirst lp cfg.target_dir rp) == some (h c)) = true
      · simp only [heq, if_true]
        exact ih _
      · simp only [heq, Bool.false_eq_true, if_false, hmax, if_true]

/-- C1: for every run configured with `max_file_count = N` (a positive
integer, as the configuration contract requires) and
`delete_after_sync = true`, the total number of remote file deletions
performed across the whole run — flat-file phase, directory-tree phase and
incremental reconcile phase combined, all threading the single
`removed_file_count` counter — is at most `N`. -/
theorem run_deletions_le_max (cfg : Config) (lookup : String → List REnt)
    (content : String → String) (fails : String → Bool)
    (walk : List (String × String)) (state0 : List (String × String))
    (h : String → String) (N : Nat)
    (hmax : cfg.max_file_count = some N) (hN : N ≠ 0)
    (hdas : cfg.delete_after_sync = true) :
    (downloadRun cfg lookup content fails walk state0 h).remoteDels.length ≤ N := by
  have hmaxT : optTruthy cfg.max_file_count = true := by simp [hmax, optTruthy, hN]
  unfold downloadRun
  rw [hmaxT, hdas]
  simp only [Bool.not_true, Bool.and_false, Bool.false_eq_true, if_false]
  by_cases hf : listTruthy cfg.files
  · simp only [hf, if_true]
    have hfold := flatFold_dels fails lookup content cfg N hmax hN hdas
      (cfg.files.getD []) ⟨0, [], [], [], 0⟩ rfl (Nat.zero_le N)
    by_cases hinc : cfg.incremental_mode
    · have hrec := reconcileGo_maxT fails lookup h cfg hmaxT walk
        ⟨0, [], [], state0,
          ((cfg.files.getD []).foldl (flatStep fails lookup content cfg) ⟨0, [], [], [], 0⟩).cnt⟩
      simp only [hinc, if_true]
      cases hre : (reconcileGo fails lookup h cfg walk
          ⟨0, [], [], state0,
            ((cfg.files.getD []).foldl (flatStep fails lookup content cfg) ⟨0, [], [], [], 0⟩).cnt⟩).2 with
      | none =>
        simp only [hre]
        simp [hrec, hfold.1 ▸ hfold.2]
      | some e =>
        simp only [hre]
        simp [hrec, hfold.1 ▸ hfold.2]
    · simp only [hinc, Bool.false_eq_true, if_false]
      simpa using hfold.1 ▸ hfold.2
  · by_cases hp : strTruthy cfg.path_prefix
    · simp only [hf, Bool.false_eq_true, if_false, hp, if_true]
      have hrm := rmList_count fails (cfg.path_prefix.getD "")
        (lookup (cfg.path_prefix.getD "")) 0 cfg.max_file_count
      have hrl := rmList_le fails (cfg.path_prefix.getD "")
        (lookup (cfg.path_prefix.getD "")) 0 cfg.max_file_count N hmax hN (Nat.zero_le N)
      have hlen : (rmList fails (cfg.path_prefix.getD "")
          (lookup (cfg.path_prefix.getD "")) 0 cfg.max_file_count).1.length ≤ N := by
        omega
      by_cases hinc : cfg.incremental_mode
      · have hrec := reconcileGo_maxT fails lookup h cfg hmaxT walk ⟨0, [], [], state0, 0⟩
        simp only [hinc, if_true]
        cases hre : (reconcileGo fails lookup h cfg walk ⟨0, [], [], state0, 0⟩).2 with
        | none => simp [hre, hrec]
        | some e => simp [hre, hrec]
      · simp only [hinc, Bool.false_eq_true, if_false]
        have hsr : (sftp_remove fails lookup true none
            (some (cfg.path_prefix.getD "")) 0 cfg.max_file_count).1
            = (rmList fails (cfg.path_prefix.getD "")
                (lookup (cfg.path_prefix.getD "")) 0 cfg.max_file_count).1 := by
          have hp2 : (cfg.path_prefix.getD "" == "") = false := by
            simpa [strTruthy] using hp
          simp only [sftp_remove, strTruthy, budgetOk]
          simp only [Option.getD_none, Option.getD_some, hp2]
          simp
          split <;> rfl
        simp [hsr, hlen]
    · simp [hf, hp]

/-- Witness for `run_deletions_le_max`: a concrete run over a directory of
five files with `max_file_count = 3`. -/
theorem run_deletions_le_max_witness :
    (downloadRun
      { path_prefix := some "/p", target_dir := "/out",
        delete_after_sync := true, max_file_count := some 3 }
      (fun p => if p == "/p" then
        [.file "a", .file "b", .file "c", .file "d", .file "e"] else [])
      (fun s => s) (fun _ => false) [] [] (fun s => s)).remoteDels.length ≤ 3 :=
  run_deletions_le_max _ _ _ _ _ _ _ 3 rfl (by decide) rfl

/-- C6: a configuration with `max_file_count` set but `delete_after_sync`
not enabled makes `download` raise the configuration error first: no
connection is attempted, nothing is transferred or deleted, and no state is
written. -/
theorem max_without_delete_is_config_error (cfg : Config)
    (lookup : String → List REnt) (content : String → String)
    (fails : String → Bool) (walk : List (String × String))
    (state0 : List (String × String)) (h : String → String)
    (hmax : optTruthy cfg.max_file_count = true)
    (hdas : cfg.delete_after_sync = false) :
    downloadRun cfg lookup content fails walk state0 h
      = ⟨0, [], [], [], [], none, some .configError⟩ := by
  unfold downloadRun
  rw [hmax, hdas]
  simp

/-- Witness for `max_without_delete_is_config_error`. -/
theorem max_without_delete_is_config_error_witness :
    downloadRun
        { files := some ["/x/a.csv"], target_dir := "/out", max_file_count := some 3 }
        (fun _ => []) (fun s => s) (fun _ => false) [] [] (fun s => s)
      = ⟨0, [], [], [], [], none, some .configError⟩ :=
  max_without_delete_is_config_error _ _ _ _ _ _ _ (by decide) rfl

/-- C4 counterexample: a deletion call with delete-after-sync disabled
returns Python `None` (modelled as `none`), not `0` as the claim states. -/
theorem sftp_remove_disabled_not_zero :
    (sftp_remove (fun _ => false) (fun _ => []) false
        (some "/x/a.csv") (some "/x") 3 (some 5)).2 ≠ some 0 := by
  decide

/-- C4 amended: with delete-after-sync disabled, `sftp_remove` performs no
remote removal and returns `None`, regardless of the other arguments. -/
theorem sftp_remove_disabled_noop (fails : String → Bool)
    (lookup : String → List REnt) (rf rp : Option String)
    (cnt : Nat) (m : Option Nat) :
    sftp_remove fails lookup false rf rp cnt m = ([], none) := rfl

/-- C3 counterexample: in a directory of three files where removing the
first raises, `sftp_remove` returns with nothing deleted and the counter
unchanged — the remaining two files of the tree were abandoned, so a
one-target failure does abort the remaining deletion work of the request. -/
theorem tree_failure_abandons_remaining :
    sftp_remove (fun p => p == "/p/a")
        (fun p => if p == "/p" then [.file "a", .file "b", .file "c"] else [])
        true none (some "/p") 0 (some 10)
      = ([], some 0)
    ∧ "/p/b" ∉ (sftp_remove (fun p => p == "/p/a")
        (fun p => if p == "/p" then [.file "a", .file "b", .file "c"] else [])
        true none (some "/p") 0 (some 10)).1 := by
  have he : sftp_remove (fun p => p == "/p/a")
      (fun p => if p == "/p" then [.file "a", .file "b", .file "c"] else [])
      true none (some "/p") 0 (some 10) = ([], some 0) := by
    simp [sftp_remove, strTruthy, budgetOk, optTruthy]
    rw [rmList.eq_def]
    simp [rmBreak, optTruthy]
  exact ⟨he, by rw [he]; simp⟩

/-- C3 amended: a deletion failure is caught at the level of the whole
`sftp_remove` request, so the function always returns and the run
continues.  For a single-file request the failed target is not counted and
nothing is removed.  For a directory-tree request the raise aborts the
remaining deletion work of that request: only the removals performed before
the failure happen, and the returned counter reverts to the value passed
in, so the whole request counts as removing nothing. -/
theorem deletion_failure_caught (fails : String → Bool)
    (lookup : String → List REnt) (cnt : Nat) (m : Option Nat) (f p : String) :
    (fails f = true → f ≠ "" → budgetOk m cnt = true →
      sftp_remove fails lookup true (some f) none cnt m = ([], some cnt))
    ∧ (p ≠ "" → (rmList fails p (lookup p) cnt m).2.2 = true →
      sftp_remove fails lookup true none (some p) cnt m
        = ((rmList fails p (lookup p) cnt m).1, some cnt)) := by
  constructor
  · intro hfail hf0 hbud
    simp [sftp_remove, strTruthy, hf0, hbud, hfail]
  · intro hp0 hraise
    simp [sftp_remove, strTruthy, hp0, hraise]

/-- Witness for `deletion_failure_caught`: the single-file and the
directory-tree failure cases at concrete inputs. -/
theorem deletion_failure_caught_witness :
    sftp_remove (fun q => q == "/q/x")
        (fun q => if q == "/q" then [.file "x", .file "y"] else [])
        true (some "/q/x") none 2 none = ([], some 2)
    ∧ sftp_remove (fun q => q == "/q/x")
        (fun q => if q == "/q" then [.file "x", .file "y"] else [])
        true none (some "/q") 0 none
        = ((rmList (fun q => q == "/q/x")
            "/q" ((fun q => if q == "/q" then [.file "x", .file "y"] else []) "/q")
            0 none).1, some 0) :=
  ⟨(deletion_failure_caught (fun q => q == "/q/x")
      (fun q => if q == "/q" then [.file "x", .file "y"] else [])
      2 none "/q/x" "/q").1 (by decide) (by decide) (by decide),
   (deletion_failure_caught (fun q => q == "/q/x")
      (fun q => if q == "/q" then [.file "x", .file "y"] else [])
      0 none "/q/x" "/q").2 (by decide)
      (by rw [rmList.eq_def]; simp [rmBreak, optTruthy])⟩

theorem flatFold_writes (fails : String → Bool) (lookup : String → List REnt)
    (content : String → String) (cfg : Config)
    (hmax : optTruthy cfg.max_file_count = false) :
    ∀ (fl : List String) (acc : FlatAcc),
      (fl.foldl (flatStep fails lookup content cfg) acc).writes
        = acc.writes ++ fl.map (fun f => (cfg.target_dir ++ "/" ++ lastSeg f, content f)) := by
  intro fl
  induction fl with
  | nil => intro acc; simp
  | cons f rest ih =>
    intro acc
    rw [List.foldl_cons, ih]
    have hstep : (flatStep fails lookup content cfg acc f).writes
        = acc.writes ++ [(cfg.target_dir ++ "/" ++ lastSeg f, content f)] := by
      unfold flatStep
      by_cases hinc : cfg.incremental_mode <;> simp [hinc, hmax]
    rw [hstep]
    simp

/-- C7 counterexample: with `max_file_count = 1`, the second listed file of
a flat run is never transferred — `gets`/`writes` stop after the first
file, and the final local content of `/out/1.csv` is the first file's
content, not the last one's.  "Every listed remote file is downloaded" is
therefore false as stated. -/
theorem flat_cap_skips_downloads :
    (downloadRun
        { files := some ["/x/1.csv", "/y/1.csv"], target_dir := "/out",
          delete_after_sync := true, max_file_count := some 1 }
        (fun _ => []) (fun s => s) (fun _ => false) [] [] (fun s => s)).writes
      = [("/out/1.csv", "/x/1.csv")]
    ∧ dictGet (finalLocal (downloadRun
        { files := some ["/x/1.csv", "/y/1.csv"], target_dir := "/out",
          delete_after_sync := true, max_file_count := some 1 }
        (fun _ => []) (fun s => s) (fun _ => false) [] [] (fun s => s)).writes)
        "/out/1.csv"
      = some "/x/1.csv" := by
  decide

/-- C7 amended: in flat mode every listed remote file is downloaded to
`target_dir` joined with only its base name provided the download cap is
not configured (with `max_file_count` set, transfers beyond the cap are
skipped); two source paths sharing a base name map to the same local path,
and the final local content is that of the file downloaded last — in
particular `files=["/x/1.csv","/y/1.csv"]`, `target_dir="/out"` map to
`/out/1.csv` with the content of `/y/1.csv`. -/
theorem flat_targets_flattened :
    (∀ (cfg : Config) (fl : List String) (lookup : String → List REnt)
        (content : String → String) (fails : String → Bool)
        (walk : List (String × String)) (state0 : List (String × String))
        (h : String → String),
      cfg.files = some fl → fl ≠ [] → cfg.max_file_count = none →
      (downloadRun cfg lookup content fails walk state0 h).writes
        = fl.map (fun f => (cfg.target_dir ++ "/" ++ lastSeg f, content f)))
    ∧ ∀ content : String → String,
        dictGet (finalLocal
          (downloadRun { files := some ["/x/1.csv", "/y/1.csv"], target_dir := "/out" }
            (fun _ => []) content (fun _ => false) [] [] (fun s => s)).writes)
          "/out/1.csv" = some (content "/y/1.csv") := by
  have main : ∀ (cfg : Config) (fl : List String) (lookup : String → List REnt)
      (content : String → String) (fails : String → Bool)
      (walk : List (String × String)) (state0 : List (String × String))
      (h : String → String),
      cfg.files = some fl → fl ≠ [] → cfg.max_file_count = none →
      (downloadRun cfg lookup content fails walk state0 h).writes
        = fl.map (fun f => (cfg.target_dir ++ "/" ++ lastSeg f, content f)) := by
    intro cfg fl lookup content fails walk state0 h hfl hne hmax
    have hmaxT : optTruthy cfg.max_file_count = false := by simp [hmax, optTruthy]
    have hlt : listTruthy cfg.files = true := by
      simp [listTruthy, hfl]
      exact hne
    have hw := flatFold_writes fails lookup content cfg hmaxT (cfg.files.getD []) ⟨0, [], [], [], 0⟩
    unfold downloadRun
    rw [hmaxT, hlt]
    simp only [Bool.false_and, Bool.false_eq_true, if_false, if_true]
    by_cases hinc : cfg.incremental_mode
    · simp only [hinc, if_true]
      cases hre : (reconcileGo fails lookup h cfg walk
          ⟨0, [], [], state0,
            ((cfg.files.getD []).foldl (flatStep fails lookup content cfg) ⟨0, [], [], [], 0⟩).cnt⟩).2 with
      | none => simpa [hre, hfl] using hw
      | some e => simpa [hre, hfl] using hw
    · simp only [hinc, Bool.false_eq_true, if_false]
      simpa [hfl] using hw
  refine ⟨main, fun content => ?_⟩
  rw [main _ ["/x/1.csv", "/y/1.csv"] _ content _ _ _ _ rfl (by decide) rfl]
  rfl

/-- Witness for `flat_targets_flattened`: a two-file flat run with
colliding base names and no cap. -/
theorem flat_targets_flattened_witness :
    (downloadRun { files := some ["/a/f.txt", "/b/f.txt"], target_dir := "/t" }
        (fun _ => []) (fun s => s ++ "!") (fun _ => false) [] [] (fun s => s)).writes
      = [("/t/f.txt", "/a/f.txt!"), ("/t/f.txt", "/b/f.txt!")]
    ∧ dictGet (finalLocal
        (downloadRun { files := some ["/x/1.csv", "/y/1.csv"], target_dir := "/out" }
          (fun _ => []) (fun s => s) (fun _ => false) [] [] (fun s => s)).writes)
        "/out/1.csv" = some "/y/1.csv" :=
  ⟨(flat_targets_flattened.1 _ ["/a/f.txt", "/b/f.txt"] _ _ _ _ _ _
      rfl (by decide) rfl).trans (by decide),
   flat_targets_flattened.2 (fun s => s)⟩

theorem lfcRun_le (M : Nat) : ∀ (n k : Nat), (lfcRun ⟨M, k⟩ n).2 ≤ M - k := by
  intro n
  induction n with
  | zero => intro k; simp [lfcRun]
  | succ n ih =>
    intro k
    by_cases hk : k ≥ M
    · have hstop : lfcGet ⟨M, k⟩ = (⟨M, k⟩, false) := by
        simp [lfcGet, stop_get_files, hk]
      simp only [lfcRun, hstop]
      simpa using ih k
    · have hgo : lfcGet ⟨M, k⟩ = (⟨M, k + 1⟩, true) := by
        simp [lfcGet, stop_get_files]
        omega
      simp only [lfcRun, hgo]
      have := ih (k + 1)
      simp only [if_true]
      omega

theorem flatStep_gets (fails : String → Bool) (lookup : String → List REnt)
    (content : String → String) (cfg : Config) (N : Nat)
    (hmax : cfg.max_file_count = some N) (hN : N ≠ 0) (f : String) (acc : FlatAcc)
    (h1 : acc.gets.length = acc.lfcCount) (h2 : acc.lfcCount ≤ N) :
    (flatStep fails lookup content cfg acc f).gets.length
        = (flatStep fails lookup content cfg acc f).lfcCount
      ∧ (flatStep fails lookup content cfg acc f).lfcCount ≤ N := by
  have hmaxT : optTruthy cfg.max_file_count = true := by simp [hmax, optTruthy, hN]
  unfold flatStep
  rw [hmaxT, hmax]
  by_cases hstop : acc.lfcCount ≥ N
  · have hg : lfcGet ⟨N, acc.lfcCount⟩ = (⟨N, acc.lfcCount⟩, false) := by
      simp [lfcGet, stop_get_files, hstop]
    by_cases hinc : cfg.incremental_mode <;> simp [hg, hinc, h1, h2]
  · have hg : lfcGet ⟨N, acc.lfcCount⟩ = (⟨N, acc.lfcCount + 1⟩, true) := by
      simp [lfcGet, stop_get_files]
      omega
    by_cases hinc : cfg.incremental_mode <;>
      (simp [hg, hinc, h1]; omega)

theorem flatFold_gets (fails : String → Bool) (lookup : String → List REnt)
    (content : String → String) (cfg : Config) (N : Nat)
    (hmax : cfg.max_file_count = some N) (hN : N ≠ 0) :
    ∀ (fl : List String) (acc : FlatAcc),
      acc.gets.length = acc.lfcCount → acc.lfcCount ≤ N →
      (fl.foldl (flatStep fails lookup content cfg) acc).gets.length
          = (fl.foldl (flatStep fails lookup content cfg) acc).lfcCount
        ∧ (fl.foldl (flatStep fails lookup content cfg) acc).lfcCount ≤ N := by
  intro fl
  induction fl with
  | nil => intro acc h1 h2; exact ⟨h1, h2⟩
  | cons f rest ih =>
    intro acc h1 h2
    have hstep := flatStep_gets fails lookup content cfg N hmax hN f acc h1 h2
    exact ih (flatStep fails lookup content cfg acc f) hstep.1 hstep.2

/-- C9: with `max_file_count = M` configured, downloads themselves are
capped: a session performs at most `M` transfers; a `get` call that starts
at or past the cap returns unchanged, transferring nothing and raising
nothing; and a whole `download` run transfers at most `M` remote files —
a cap the spec attributes only to deletions. -/
theorem limited_get_caps_downloads :
    (∀ M n : Nat, (lfcRun ⟨M, 0⟩ n).2 ≤ M)
    ∧ (∀ c : LimitedFilesConnection,
        c.current_file_count ≥ c.max_file_count → lfcGet c = (c, false))
    ∧ (∀ (cfg : Config) (lookup : String → List REnt) (content : String → String)
        (fails : String → Bool) (walk : List (String × String))
        (state0 : List (String × String)) (h : String → String) (M : Nat),
        cfg.max_file_count = some M → M ≠ 0 → cfg.delete_after_sync = true →
        (downloadRun cfg lookup content fails walk state0 h).gets.length ≤ M) := by
  refine ⟨fun M n => by simpa using lfcRun_le M n 0, ?_, ?_⟩
  · intro c hc
    simp [lfcGet, stop_get_files, hc]
  · intro cfg lookup content fails walk state0 h M hmax hM hdas
    have hmaxT : optTruthy cfg.max_file_count = true := by simp [hmax, optTruthy, hM]
    unfold downloadRun
    rw [hmaxT, hdas]
    simp only [Bool.not_true, Bool.and_false, Bool.false_eq_true, if_false]
    by_cases hf : listTruthy cfg.files
    · simp only [hf, if_true]
      have hfold := flatFold_gets fails lookup content cfg M hmax hM
        (cfg.files.getD []) ⟨0, [], [], [], 0⟩ rfl (Nat.zero_le M)
      by_cases hinc : cfg.incremental_mode
      · simp only [hinc, if_true]
        cases hre : (reconcileGo fails lookup h cfg walk
            ⟨0, [], [], state0,
              ((cfg.files.getD []).foldl (flatStep fails lookup content cfg) ⟨0, [], [], [], 0⟩).cnt⟩).2 with
        | none => simpa [hre] using hfold.1 ▸ hfold.2
        | some e => simpa [hre] using hfold.1 ▸ hfold.2
      · simp only [hinc, Bool.false_eq_true, if_false]
        simpa using hfold.1 ▸ hfold.2
    · by_cases hp : strTruthy cfg.path_prefix
      · simp only [hf, Bool.false_eq_true, if_false, hp, if_true, hmaxT, hmax, if_true]
        by_cases hinc : cfg.incremental_mode
        · simp only [hinc, if_true]
          cases hre : (reconcileGo fails lookup h cfg walk ⟨0, [], [], state0, 0⟩).2 with
          | none => simp [hre, List.length_take]
          | some e => simp [hre, List.length_take]
        · simp only [hinc, Bool.false_eq_true, if_false]
          simp [List.length_take]
      · simp [hf, hp]

/-- Witness for `limited_get_caps_downloads`: a saturated connection skips
its `get`, and a two-file flat run with `max_file_count = 1` transfers at
most one file. -/
theorem limited_get_caps_downloads_witness :
    lfcGet ⟨2, 2⟩ = (⟨2, 2⟩, false)
    ∧ (downloadRun
        { files := some ["/x/1.csv", "/y/1.csv"], target_dir := "/out",
          delete_after_sync := true, max_file_count := some 1 }
        (fun _ => []) (fun s => s) (fun _ => false) [] [] (fun s => s)).gets.length ≤ 1 :=
  ⟨limited_get_caps_downloads.2.1 ⟨2, 2⟩ (by decide),
   limited_get_caps_downloads.2.2 _ _ _ _ _ _ _ 1 rfl (by decide) rfl⟩

theorem flatFold_inc (fails : String → Bool) (lookup : String → List REnt)
    (content : String → String) (cfg : Config)
    (hinc : cfg.incremental_mode = true) :
    ∀ (fl : List String) (acc : FlatAcc),
      (fl.foldl (flatStep fails lookup content cfg) acc).dels = acc.dels
      ∧ (fl.foldl (flatStep fails lookup content cfg) acc).cnt = acc.cnt := by
  intro fl
  induction fl with
  | nil => intro acc; exact ⟨rfl, rfl⟩
  | cons f rest ih =>
    intro acc
    have hstep : (flatStep fails lookup content cfg acc f).dels = acc.dels
        ∧ (flatStep fails lookup content cfg acc f).cnt = acc.cnt := by
      unfold flatStep
      simp [hinc]
    have := ih (flatStep fails lookup content cfg acc f)
    rw [List.foldl_cons]
    exact ⟨this.1.trans hstep.1, this.2.trans hstep.2⟩

/-- C10: when `max_file_count` is configured (hence `delete_after_sync` as
well) and `incremental_mode` runs, the reconcile walk crashes on the first
processed file whose hash differs from its ledger entry: the per-file
`pysftp.Connection(host, **connection_config)` call receives the leftover
`max_file_count` keyword, which the plain constructor rejects, so the run
aborts with a `TypeError` — nothing is deleted for that file, no further
remote deletion happens, and the state ledger is never written. -/
theorem reconcile_crashes_on_leftover_kwarg :
    (∀ (fails : String → Bool) (lookup : String → List REnt) (h : String → String)
        (cfg : Config) (lp c : String) (rest : List (String × String))
        (acc : IncAcc) (rp : String),
      cfg.path_prefix = some rp → optTruthy cfg.max_file_count = true →
      dictGet acc.state (replaceFirst lp cfg.target_dir rp) ≠ some (h c) →
      reconcileGo fails lookup h cfg ((lp, c) :: rest) acc = (acc, some .typeError))
    ∧ (∀ (cfg : Config) (lookup : String → List REnt) (content : String → String)
        (fails : String → Bool) (lp c : String) (rest : List (String × String))
        (state0 : List (String × String)) (h : String → String) (rp : String),
      listTruthy cfg.files = true → cfg.path_prefix = some rp →
      cfg.incremental_mode = true → optTruthy cfg.max_file_count = true →
      cfg.delete_after_sync = true →
      dictGet state0 (replaceFirst lp cfg.target_dir rp) ≠ some (h c) →
      (downloadRun cfg lookup content fails ((lp, c) :: rest) state0 h).err
          = some .typeError
        ∧ (downloadRun cfg lookup content fails ((lp, c) :: rest) state0 h).remoteDels = []
        ∧ (downloadRun cfg lookup content fails ((lp, c) :: rest) state0 h).finalState
          = none) := by
  have step : ∀ (fails : String → Bool) (lookup : String → List REnt) (h : String → String)
      (cfg : Config) (lp c : String) (rest : List (String × String))
      (acc : IncAcc) (rp : String),
      cfg.path_prefix = some rp → optTruthy cfg.max_file_count = true →
      dictGet acc.state (replaceFirst lp cfg.target_dir rp) ≠ some (h c) →
      reconcileGo fails lookup h cfg ((lp, c) :: rest) acc = (acc, some .typeError) := by
    intro fails lookup h cfg lp c rest acc rp hpp hmaxT hdiff
    unfold reconcileGo
    rw [hpp]
    have hne : (dictGet acc.state (replaceFirst lp cfg.target_dir rp) == some (h c)) = false := by
      simp only [beq_eq_false_iff_ne, ne_eq]
      exact hdiff
    simp [hne, hmaxT]
  refine ⟨step, ?_⟩
  intro cfg lookup content fails lp c rest state0 h rp hfl hpp hinc hmaxT hdas hdiff
  have hfold := flatFold_inc fails lookup content cfg hinc (cfg.files.getD []) ⟨0, [], [], [], 0⟩
  have hrec := step fails lookup h cfg lp c rest
    ⟨0, [], [], state0,
      ((cfg.files.getD []).foldl (flatStep fails lookup content cfg) ⟨0, [], [], [], 0⟩).cnt⟩
    rp hpp hmaxT hdiff
  unfold downloadRun
  rw [hmaxT, hdas]
  simp only [Bool.not_true, Bool.and_false, Bool.false_eq_true, if_false]
  simp only [hfl, if_true, hinc]
  rw [hrec]
  simp [hfold.1]

/-- Witness for `reconcile_crashes_on_leftover_kwarg`: one changed file in
the walk under a `max_file_count = 4` incremental run. -/
theorem reconcile_crashes_on_leftover_kwarg_witness :
    reconcileGo (fun _ => false) (fun _ => []) (fun s => s ++ "%")
        { files := some ["/r/new.csv"], path_prefix := some "/r", target_dir := "/loc",
          delete_after_sync := true, incremental_mode := true, max_file_count := some 4 }
        [("/loc/new.csv", "payload")] ⟨0, [], [], [], 0⟩
      = (⟨0, [], [], [], 0⟩, some .typeError)
    ∧ (downloadRun
        { files := some ["/r/new.csv"], path_prefix := some "/r", target_dir := "/loc",
          delete_after_sync := true, incremental_mode := true, max_file_count := some 4 }
        (fun _ => []) (fun s => s) (fun _ => false)
        [("/loc/new.csv", "payload")] [] (fun s => s ++ "%")).err = some .typeError :=
  ⟨reconcile_crashes_on_leftover_kwarg.1 _ _ _ _ "/loc/new.csv" "payload" [] _ "/r"
      rfl (by decide) (by decide),
   (reconcile_crashes_on_leftover_kwarg.2 _ _ _ _ "/loc/new.csv" "payload" [] _ _ "/r"
      (by decide) rfl rfl (by decide) rfl (by decide)).1⟩

/-- C2 counterexample: an incremental run with `max_file_count` configured
walks one local file whose hash is absent from the ledger.  The claim says
the remote copy is then removed through the shared budget and the ledger
entry is set; instead the run aborts before any removal, and the ledger is
never written. -/
theorem reconcile_differing_not_removed_with_max :
    (downloadRun
        { files := some ["/x/a.csv"], path_prefix := some "/x", target_dir := "/out",
          delete_after_sync := true, incremental_mode := true, max_file_count := some 5 }
        (fun _ => []) (fun s => s) (fun _ => false)
        [("/out/a.csv", "data")] [] (fun s => s ++ "#")).remoteDels = []
    ∧ (downloadRun
        { files := some ["/x/a.csv"], path_prefix := some "/x", target_dir := "/out",
          delete_after_sync := true, incremental_mode := true, max_file_count := some 5 }
        (fun _ => []) (fun s => s) (fun _ => false)
        [("/out/a.csv", "data")] [] (fun s => s ++ "#")).finalState = none
    ∧ (downloadRun
        { files := some ["/x/a.csv"], path_prefix := some "/x", target_dir := "/out",
          delete_after_sync := true, incremental_mode := true, max_file_count := some 5 }
        (fun _ => []) (fun s => s) (fun _ => false)
        [("/out/a.csv", "data")] [] (fun s => s ++ "#")).err = some .typeError := by
  decide

/-- C2 amended: per walked local file, with the remote path derived by
substituting the first occurrence of `target_dir` with the remote root:
hash equal to the ledger entry deletes the local copy only — connections,
remote deletions and counter untouched — and writes the hash into the
ledger; hash differing or absent keeps the local copy and (provided
`max_file_count` is not configured — otherwise the run aborts, see the
counterexample) opens one connection, routes the removal of that specific
remote file through `sftp_remove` with the shared counter, and writes the
hash; when delete-after-sync is on and the removal does not fail, exactly
that remote file is removed. -/
theorem reconcile_per_file (fails : String → Bool) (lookup : String → List REnt)
    (h : String → String) (cfg : Config) (lp c : String)
    (rest : List (String × String)) (acc : IncAcc) (rp : String)
    (hpp : cfg.path_prefix = some rp) :
    (dictGet acc.state (replaceFirst lp cfg.target_dir rp) = some (h c) →
      reconcileGo fails lookup h cfg ((lp, c) :: rest) acc
        = reconcileGo fails lookup h cfg rest
            { acc with localDels := acc.localDels ++ [lp],
                       state := dictSet acc.state (replaceFirst lp cfg.target_dir rp) (h c) })
    ∧ (dictGet acc.state (replaceFirst lp cfg.target_dir rp) ≠ some (h c) →
       optTruthy cfg.max_file_count = false →
      reconcileGo fails lookup h cfg ((lp, c) :: rest) acc
        = reconcileGo fails lookup h cfg rest
            { connects := acc.connects + 1,
              remoteDels := acc.remoteDels
                ++ (sftp_remove fails lookup cfg.delete_after_sync
                    (some (replaceFirst lp cfg.target_dir rp)) none
                    acc.cnt cfg.max_file_count).1,
              localDels := acc.localDels,
              state := dictSet acc.state (replaceFirst lp cfg.target_dir rp) (h c),
              cnt := (sftp_remove fails lookup cfg.delete_after_sync
                    (some (replaceFirst lp cfg.target_dir rp)) none
                    acc.cnt cfg.max_file_count).2.getD acc.cnt })
    ∧ (cfg.delete_after_sync = true → optTruthy cfg.max_file_count = false →
       fails (replaceFirst lp cfg.target_dir rp) = false →
       replaceFirst lp cfg.target_dir rp ≠ "" →
      (sftp_remove fails lookup cfg.delete_after_sync
          (some (replaceFirst lp cfg.target_dir rp)) none
          acc.cnt cfg.max_file_count).1
        = [replaceFirst lp cfg.target_dir rp]) := by
  refine ⟨?_, ?_, ?_⟩
  · intro heq
    have hbeq : (dictGet acc.state (replaceFirst lp cfg.target_dir rp) == some (h c)) = true := by
      simp [heq]
    conv_lhs => rw [reconcileGo.eq_def]
    simp [hpp, hbeq]
  · intro hdiff hmaxF
    have hbeq : (dictGet acc.state (replaceFirst lp cfg.target_dir rp) == some (h c)) = false := by
      simp only [beq_eq_false_iff_ne, ne_eq]
      exact hdiff
    conv_lhs => rw [reconcileGo.eq_def]
    simp [hpp, hbeq, hmaxF]
  · intro hdas hmaxF hnofail hne
    rw [hdas]
    have hbud : budgetOk cfg.max_file_count acc.cnt = true := by
      simp [budgetOk, hmaxF]
    simp [sftp_remove, strTruthy, hne, hbud, hnofail]

/-- Witness for `reconcile_per_file`: the equal-hash branch, the
differing-hash branch without a configured cap, and the exact removal of
the derived remote file. -/
theorem reconcile_per_file_witness :
    reconcileGo (fun _ => false) (fun _ => []) (fun s => s ++ "@")
        { path_prefix := some "/srv", target_dir := "/dl", delete_after_sync := true,
          incremental_mode := true }
        [("/dl/keep.csv", "blob")] ⟨0, [], [], [("/srv/keep.csv", "blob@")], 0⟩
      = reconcileGo (fun _ => false) (fun _ => []) (fun s => s ++ "@")
          { path_prefix := some "/srv", target_dir := "/dl", delete_after_sync := true,
            incremental_mode := true }
          [] ⟨0, [], ["/dl/keep.csv"], [("/srv/keep.csv", "blob@")], 0⟩
    ∧ reconcileGo (fun _ => false) (fun _ => []) (fun s => s ++ "@")
        { path_prefix := some "/srv", target_dir := "/dl", delete_after_sync := true,
          incremental_mode := true }
        [("/dl/fresh.csv", "blob")] ⟨0, [], [], [], 0⟩
      = reconcileGo (fun _ => false) (fun _ => []) (fun s => s ++ "@")
          { path_prefix := some "/srv", target_dir := "/dl", delete_after_sync := true,
            incremental_mode := true }
          [] ⟨1, ["/srv/fresh.csv"], [], [("/srv/fresh.csv", "blob@")], 1⟩
    ∧ (sftp_remove (fun _ => false) (fun _ => []) true (some "/srv/fresh.csv") none 0 none).1
      = ["/srv/fresh.csv"] := by
  refine ⟨?_, ?_, ?_⟩
  · exact (reconcile_per_file (fun _ => false) (fun _ => []) (fun s => s ++ "@")
      { path_prefix := some "/srv", target_dir := "/dl", delete_after_sync := true,
        incremental_mode := true }
      "/dl/keep.csv" "blob" [] ⟨0, [], [], [("/srv/keep.csv", "blob@")], 0⟩ "/srv" rfl).1
        (by decide)
  · exact ((reconcile_per_file (fun _ => false) (fun _ => []) (fun s => s ++ "@")
      { path_prefix := some "/srv", target_dir := "/dl", delete_after_sync := true,
        incremental_mode := true }
      "/dl/fresh.csv" "blob" [] ⟨0, [], [], [], 0⟩ "/srv" rfl).2.1
        (by decide) (by decide)).trans (by decide)
  · exact ((reconcile_per_file (fun _ => false) (fun _ => []) (fun s => s ++ "@")
      { path_prefix := some "/srv", target_dir := "/dl", delete_after_sync := true,
        incremental_mode := true }
      "/dl/fresh.csv" "blob" [] ⟨0, [], [], [], 0⟩ "/srv" rfl).2.2
        rfl (by decide) (by decide) (by decide)).trans (by decide)

theorem pattern_selection_general :
    ∀ (patterns : List String) (path : String) (ents : List REnt),
      patternSelectFiles patterns path ents
        = ((allFilesNamed path ents).filter
            (fun pr => patterns.any (fun p => pyStartsWith pr.2 p))).map Prod.fst := by
  intro patterns path ents
  induction path, ents using patternSelectFiles.induct patterns with
  | case1 path => simp [patternSelectFiles, allFilesNamed]
  | case2 path name rest ih =>
    rw [patternSelectFiles.eq_def, allFilesNamed.eq_def]
    simp only []
    by_cases hm : (patterns.any (fun p => pyStartsWith name p)) = true
    · simp [hm, ih]
    · simp only [Bool.not_eq_true] at hm
      simp [hm, ih]
  | case3 path name children rest ih1 ih2 =>
    rw [patternSelectFiles.eq_def, allFilesNamed.eq_def]
    simp [ih1, ih2]

/-- C5 (the pattern-filtered `tables` mode is modelled from the spec, no
function of it being present in the source tree): the recursive walk
selects exactly the files, at any depth, whose entry name starts with a
configured prefix — it descends into every subdirectory and filters on
names only; on the tree `/a/foo.csv`, `/a/bar.csv`, `/a/sub/foo2.csv` with
pattern `["foo"]` the selection is `/a/foo.csv` and `/a/sub/foo2.csv`,
excluding `/a/bar.csv`. -/
theorem pattern_selection_filters_by_name :
    (∀ (patterns : List String) (path : String) (ents : List REnt),
      patternSelectFiles patterns path ents
        = ((allFilesNamed path ents).filter
            (fun pr => patterns.any (fun p => pyStartsWith pr.2 p))).map Prod.fst)
    ∧ patternSelectFiles ["foo"] "/a"
        [.file "foo.csv", .file "bar.csv", .dir "sub" [.file "foo2.csv"]]
        = ["/a/foo.csv", "/a/sub/foo2.csv"]
    ∧ "/a/bar.csv" ∉ patternSelectFiles ["foo"] "/a"
        [.file "foo.csv", .file "bar.csv", .dir "sub" [.file "foo2.csv"]] := by
  have hex : patternSelectFiles ["foo"] "/a"
      [.file "foo.csv", .file "bar.csv", .dir "sub" [.file "foo2.csv"]]
      = ["/a/foo.csv", "/a/sub/foo2.csv"] := by
    simp [patternSelectFiles]
    decide
  refine ⟨pattern_selection_general, hex, ?_⟩
  rw [hex]
  decide

/-! ### The ledger round trip (C8)

`json.dump` and `json.load` escape and unescape, so the round trip is the
identity on arbitrary strings; the model covers the escape-free fragment
(`plainStr`), which includes every hex digest and ordinary remote path. -/

theorem plainChar_ne_quote {ch : Char} (hp : plainChar ch = true) : (ch == '\x22') = false := by
  simp [plainChar] at hp
  simp [hp.1]

theorem strChars_plain : ∀ (s r : List Char), (∀ ch ∈ s, plainChar ch = true) →
    strChars (s ++ '\x22' :: r) = some (s, r) := by
  intro s
  induction s with
  | nil => intro r _; simp [strChars]
  | cons c cs ih =>
    intro r hpl
    have hc : plainChar c = true := hpl c (List.mem_cons_self c cs)
    have hq := plainChar_ne_quote hc
    simp only [List.cons_append, strChars, hq, Bool.false_eq_true, if_false, hc, if_true,
      List.append_eq]
    rw [ih r (fun ch hch => hpl ch (List.mem_cons_of_mem c hch))]
    rfl

theorem parseStr_plain (s : String) (r : List Char) (hpl : plainStr s = true) :
    parseStr ('\x22' :: (s.data ++ '\x22' :: r)) = some (s, r) := by
  have : strChars (s.data ++ '\x22' :: r) = some (s.data, r) := by
    apply strChars_plain
    intro ch hch
    exact List.all_eq_true.mp hpl ch hch
  simp [parseStr, this]

theorem jsonWs_facts :
    jsonWs ' ' = true ∧ jsonWs '\n' = true ∧ jsonWs '\x22' = false
    ∧ jsonWs ':' = false ∧ jsonWs ',' = false ∧ jsonWs '\x7d' = false := by
  decide

theorem dumpEntry_data (k v : String) (tail : List Char) :
    (dumpEntry (k, v)).data ++ tail
      = ' ' :: ' ' :: ' ' :: ' ' :: '\x22'
          :: (k.data ++ '\x22' :: ':' :: ' ' :: '\x22' :: (v.data ++ '\x22' :: tail)) := by
  have h1 : "    \x22".data = [' ', ' ', ' ', ' ', '\x22'] := by decide
  have h2 : "\x22: \x22".data = ['\x22', ':', ' ', '\x22'] := by decide
  have h3 : "\x22".data = ['\x22'] := by decide
  simp [dumpEntry, String.data_append, h1, h2, h3]

theorem parseEntry_last (k v : String) (r : List Char)
    (hk : plainStr k = true) (hv : plainStr v = true) (fuel : Nat) :
    parseEntriesGo (fuel + 1) ((dumpEntry (k, v)).data ++ '\n' :: '\x7d' :: r)
      = some ([(k, v)], r) := by
  rw [dumpEntry_data]
  simp only [parseEntriesGo]
  rw [show skipWs (' ' :: ' ' :: ' ' :: ' ' :: '\x22'
      :: (k.data ++ '\x22' :: ':' :: ' ' :: '\x22' :: (v.data ++ '\x22' :: '\n' :: '\x7d' :: r)))
    = '\x22' :: (k.data ++ '\x22' :: ':' :: ' ' :: '\x22' :: (v.data ++ '\x22' :: '\n' :: '\x7d' :: r))
    from by simp [skipWs, jsonWs_facts.1, jsonWs_facts.2.2.1]]
  rw [parseStr_plain k _ hk]
  simp only
  rw [show skipWs (':' :: ' ' :: '\x22' :: (v.data ++ '\x22' :: '\n' :: '\x7d' :: r))
    = ':' :: ' ' :: '\x22' :: (v.data ++ '\x22' :: '\n' :: '\x7d' :: r)
    from by simp [skipWs, jsonWs_facts.2.2.2.1]]
  simp only
  rw [show skipWs (' ' :: '\x22' :: (v.data ++ '\x22' :: '\n' :: '\x7d' :: r))
    = '\x22' :: (v.data ++ '\x22' :: '\n' :: '\x7d' :: r)
    from by simp [skipWs, jsonWs_facts.1, jsonWs_facts.2.2.1]]
  rw [parseStr_plain v _ hv]
  simp only
  rw [show skipWs ('\n' :: '\x7d' :: r) = '\x7d' :: r
    from by simp [skipWs, jsonWs_facts.2.1, jsonWs_facts.2.2.2.2.2]]
  rfl

theorem parseEntry_cons (k v : String) (tail : List Char)
    (es : List (String × String)) (r2 : List Char)
    (hk : plainStr k = true) (hv : plainStr v = true) (fuel : Nat)
    (hrec : parseEntriesGo fuel ('\n' :: tail) = some (es, r2)) :
    parseEntriesGo (fuel + 1) ((dumpEntry (k, v)).data ++ ',' :: '\n' :: tail)
      = some ((k, v) :: es, r2) := by
  rw [dumpEntry_data]
  simp only [parseEntriesGo]
  rw [show skipWs (' ' :: ' ' :: ' ' :: ' ' :: '\x22'
      :: (k.data ++ '\x22' :: ':' :: ' ' :: '\x22' :: (v.data ++ '\x22' :: ',' :: '\n' :: tail)))
    = '\x22' :: (k.data ++ '\x22' :: ':' :: ' ' :: '\x22' :: (v.data ++ '\x22' :: ',' :: '\n' :: tail))
    from by simp [skipWs, jsonWs_facts.1, jsonWs_facts.2.2.1]]
  rw [parseStr_plain k _ hk]
  simp only
  rw [show skipWs (':' :: ' ' :: '\x22' :: (v.data ++ '\x22' :: ',' :: '\n' :: tail))
    = ':' :: ' ' :: '\x22' :: (v.data ++ '\x22' :: ',' :: '\n' :: tail)
    from by simp [skipWs, jsonWs_facts.2.2.2.1]]
  simp only
  rw [show skipWs (' ' :: '\x22' :: (v.data ++ '\x22' :: ',' :: '\n' :: tail))
    = '\x22' :: (v.data ++ '\x22' :: ',' :: '\n' :: tail)
    from by simp [skipWs, jsonWs_facts.1, jsonWs_facts.2.2.1]]
  rw [parseStr_plain v _ hv]
  simp only
  rw [show skipWs (',' :: '\n' :: tail) = ',' :: '\n' :: tail
    from by simp [skipWs, jsonWs_facts.2.2.2.2.1]]
  simp only [hrec]

theorem parseEntriesGo_nl (fuel : Nat) (l : List Char) :
    parseEntriesGo fuel ('\n' :: l) = parseEntriesGo fuel l := by
  cases fuel with
  | zero => rfl
  | succ fuel =>
    simp only [parseEntriesGo]
    rw [show skipWs ('\n' :: l) = skipWs l from by simp [skipWs, jsonWs_facts.2.1]]

theorem dumpEntries_cons_data (kv kv2 : String × String) (rest2 : List (String × String)) :
    (dumpEntries (kv :: kv2 :: rest2)).data
      = (dumpEntry kv).data ++ ',' :: '\n' :: (dumpEntries (kv2 :: rest2)).data := by
  have h1 : ",\n".data = [',', '\n'] := by decide
  show (dumpEntry kv ++ ",\n" ++ dumpEntries (kv2 :: rest2)).data = _
  simp [String.data_append, h1]

theorem parseEntries_dump : ∀ (m : List (String × String)), m ≠ [] →
    (∀ kv ∈ m, plainStr kv.1 = true ∧ plainStr kv.2 = true) →
    ∀ (r : List Char) (fuel : Nat), m.length ≤ fuel →
    parseEntriesGo fuel ((dumpEntries m).data ++ '\n' :: '\x7d' :: r) = some (m, r) := by
  intro m
  induction m with
  | nil => intro h; exact absurd rfl h
  | cons kv rest ih =>
    intro _ hpl r fuel hlen
    have hk : plainStr kv.1 = true := (hpl kv (List.mem_cons_self kv rest)).1
    have hv : plainStr kv.2 = true := (hpl kv (List.mem_cons_self kv rest)).2
    cases fuel with
    | zero => simp at hlen
    | succ fuel =>
      cases rest with
      | nil =>
        show parseEntriesGo (fuel + 1) ((dumpEntry kv).data ++ '\n' :: '\x7d' :: r)
          = some ([kv], r)
        have := parseEntry_last kv.1 kv.2 r hk hv fuel
        simpa using this
      | cons kv2 rest2 =>
        rw [dumpEntries_cons_data, List.append_assoc]
        have hrec : parseEntriesGo fuel
            ('\n' :: ((dumpEntries (kv2 :: rest2)).data ++ '\n' :: '\x7d' :: r))
            = some (kv2 :: rest2, r) := by
          rw [parseEntriesGo_nl]
          exact ih (List.cons_ne_nil kv2 rest2)
            (fun x hx => hpl x (List.mem_cons_of_mem kv hx)) r fuel
            (by simpa using Nat.lt_succ_iff.mp (by simpa using hlen))
        have := parseEntry_cons kv.1 kv.2
          ((dumpEntries (kv2 :: rest2)).data ++ '\n' :: '\x7d' :: r)
          (kv2 :: rest2) r hk hv fuel hrec
        simpa using this

theorem dumpEntries_length_ge :
    ∀ m : List (String × String), m.length ≤ (dumpEntries m).data.length := by
  intro m
  induction m with
  | nil => simp
  | cons kv rest ih =>
    cases rest with
    | nil =>
      have := dumpEntry_data kv.1 kv.2 []
      simp only [List.append_nil] at this
      show 1 ≤ (dumpEntry (kv.1, kv.2)).data.length
      rw [this]
      simp
    | cons kv2 rest2 =>
      rw [dumpEntries_cons_data]
      have := dumpEntry_data kv.1 kv.2 []
      simp only [List.append_nil] at this
      simp only [List.length_append, List.length_cons]
      simp only [List.length_cons] at ih
      omega

theorem ledger_roundtrip_main (m : List (String × String))
    (hpl : ∀ kv ∈ m, plainStr kv.1 = true ∧ plainStr kv.2 = true) :
    parseLedger (dumpLedger m) = some m := by
  cases m with
  | nil => decide
  | cons kv rest =>
    obtain ⟨k, v⟩ := kv
    have hbr : jsonWs '\x7b' = false := by decide
    have hd2 : "\x7b\n".data = ['\x7b', '\n'] := by decide
    have hd3 : "\n\x7d".data = ['\n', '\x7d'] := by decide
    have hdata : (dumpLedger ((k, v) :: rest)).data
        = '\x7b' :: '\n' :: ((dumpEntries ((k, v) :: rest)).data ++ '\n' :: '\x7d' :: []) := by
      show ("\x7b\n" ++ dumpEntries ((k, v) :: rest) ++ "\n\x7d").data = _
      simp [String.data_append, hd2, hd3]
    have hE : ∃ t, (dumpEntries ((k, v) :: rest)).data = (dumpEntry (k, v)).data ++ t := by
      cases rest with
      | nil => exact ⟨[], by simp [dumpEntries]⟩
      | cons kv2 rest2 =>
        exact ⟨',' :: '\n' :: (dumpEntries (kv2 :: rest2)).data,
          dumpEntries_cons_data (k, v) kv2 rest2⟩
    obtain ⟨t, hEt⟩ := hE
    unfold parseLedger
    rw [hdata]
    rw [show skipWs ('\x7b' :: '\n'
        :: ((dumpEntries ((k, v) :: rest)).data ++ '\n' :: '\x7d' :: []))
      = '\x7b' :: '\n' :: ((dumpEntries ((k, v) :: rest)).data ++ '\n' :: '\x7d' :: [])
      from by simp [skipWs, hbr]]
    have hsw : skipWs ('\n' :: ((dumpEntries ((k, v) :: rest)).data ++ '\n' :: '\x7d' :: []))
        = '\x22' :: (k.data ++ '\x22' :: ':' :: ' ' :: '\x22'
            :: (v.data ++ '\x22' :: (t ++ '\n' :: '\x7d' :: []))) := by
      rw [hEt, List.append_assoc, dumpEntry_data k v (t ++ '\n' :: '\x7d' :: [])]
      simp [skipWs, jsonWs_facts.1, jsonWs_facts.2.1, jsonWs_facts.2.2.1]
    have hfuel : ((k, v) :: rest).length
        ≤ ('\x7b' :: '\n'
            :: ((dumpEntries ((k, v) :: rest)).data ++ '\n' :: '\x7d' :: [])).length + 1 := by
      have := dumpEntries_length_ge ((k, v) :: rest)
      simp only [List.length_cons, List.length_append]
      simp only [List.length_cons] at this
      omega
    have hparse := parseEntries_dump ((k, v) :: rest) (List.cons_ne_nil (k, v) rest) hpl []
      (('\x7b' :: '\n'
        :: ((dumpEntries ((k, v) :: rest)).data ++ '\n' :: '\x7d' :: [])).length + 1) hfuel
    simp only [hsw, parseEntriesGo_nl, hparse]
    simp [skipWs]

/-- C8: a ledger written at run end parses back to the identical mapping —
same keys in the same positions, identical hash values — for every ledger
of escape-free strings; and loading an absent state file yields the empty
mapping. -/
theorem ledger_roundtrip :
    (∀ m : List (String × String),
      (∀ kv ∈ m, plainStr kv.1 = true ∧ plainStr kv.2 = true) →
      load_json (some (dumpLedger m)) = some m)
    ∧ load_json none = some [] :=
  ⟨fun m hpl => ledger_roundtrip_main m hpl, rfl⟩

/-- Witness for `ledger_roundtrip`: a two-entry ledger of md5-style
digests. -/
theorem ledger_roundtrip_witness :
    load_json (some (dumpLedger [("/x/a.csv", "0a1b2c"), ("/y/b.csv", "ffee")]))
      = some [("/x/a.csv", "0a1b2c"), ("/y/b.csv", "ffee")] :=
  ledger_roundtrip.1 [("/x/a.csv", "0a1b2c"), ("/y/b.csv", "ffee")] (by decide)

end TapSftpFiles
